import Mathlib

/-!
Verification of the company-directory extraction pipeline in
src/scribe/doc_reader.py.

The Python module is shallowly embedded: text is `List Char`, each regex
of the source is modelled by an explicit character-level matcher with the
same (leftmost, greedy-with-backtracking) semantics, and the imperative
loops become structural recursions.  Scanning loops that jump past a
matched region recurse on a strict suffix of their input; they are written
with a fuel parameter initialised to the input length, which is an upper
bound on the number of scanning steps (every step consumes at least one
character), so the fuel never runs out.
-/

namespace Scribe

/-- Text is modelled as a list of characters (Python `str`). -/
abbrev Str := List Char

/-- Python whitespace characters (`\s` of the `re` module, ASCII range). -/
def isWS (c : Char) : Bool :=
  c = ' ' || c = '\t' || c = '\n' || c = '\r' || c = Char.ofNat 11 || c = Char.ofNat 12

/-- Python word character (`\w` of the `re` module, ASCII range): used for
the `\b` word boundaries of CO_TAIL_RE and PHONE_RE. -/
def isWordChar (c : Char) : Bool :=
  c.isAlpha || c.isDigit || c = '_'

/-- `str.lower()` on ASCII text. -/
def toLowerStr (s : Str) : Str := s.map Char.toLower

/-- `str.strip()`: remove leading and trailing whitespace. -/
def pyStrip (s : Str) : Str :=
  ((s.dropWhile isWS).reverse.dropWhile isWS).reverse

/-- Worker for `collapseWS`: the flag records whether the previous input
character was whitespace (i.e. we are inside a run already replaced). -/
def collapseWSGo : Bool → Str → Str
  | _, [] => []
  | prevWS, c :: cs =>
    if isWS c then
      if prevWS then collapseWSGo true cs else ' ' :: collapseWSGo true cs
    else c :: collapseWSGo false cs

/-- `re.sub(r"\s+", " ", s)`: every maximal whitespace run becomes one space. -/
def collapseWS (s : Str) : Str := collapseWSGo false s

/-- Worker for `collapse2` (fuelled: each step consumes at least one char). -/
def collapse2Go : Nat → Str → Str
  | 0, s => s
  | _ + 1, [] => []
  | _ + 1, [c] => [c]
  | fuel + 1, c :: c2 :: cs =>
    if isWS c && isWS c2 then ' ' :: collapse2Go fuel ((c2 :: cs).dropWhile isWS)
    else c :: collapse2Go fuel (c2 :: cs)

/-- `re.sub(r"\s{2,}", " ", s)`: whitespace runs of length at least two
become one space; single whitespace characters are kept unchanged. -/
def collapse2 (s : Str) : Str := collapse2Go s.length s

/-- `" ".join(parts)`. -/
def joinSpaces (parts : List Str) : Str := List.intercalate [' '] parts

/-- `"\n".join(parts)`. -/
def joinNL (parts : List Str) : Str := List.intercalate ['\n'] parts

/-- Substring test, Python `needle in hay` (case-sensitive). -/
def containsSub (needle hay : Str) : Bool :=
  (List.range (hay.length + 1)).any (fun i => needle.isPrefixOf (hay.drop i))

/-- Worker of `dedup_preserve_order`: direct translation of the loop with
its `seen` set (modelled as a list) and `out` accumulator. -/
def dedupGo {α : Type} [DecidableEq α] (seen out : List α) : List α → List α
  | [] => out
  | x :: xs =>
    if x ∈ seen then dedupGo seen out xs
    else dedupGo (seen ++ [x]) (out ++ [x]) xs

/-- `dedup_preserve_order` (doc_reader.py lines 31-38): drop duplicates,
keeping the first occurrence of each element, preserving order. -/
def dedup_preserve_order {α : Type} [DecidableEq α] (items : List α) : List α :=
  dedupGo [] [] items

/-! ## Header-detector regular expressions -/

/-- `REJECT_BOLD_PREFIXES` from doc_reader.py (all lowercase, matched with
case-insensitive `str.startswith`). -/
def REJECT_BOLD_PREFIXES : List Str :=
  [("directory of".data), ("business activities".data), ("email".data),
   ("web site".data), ("tel.no".data), ("fax.no".data),
   ("authorised capital".data), ("paid up capital".data),
   ("incorporation date".data), ("no of employees".data), ("management".data)]

/-- `joined.lower().startswith(REJECT_BOLD_PREFIXES)`. -/
def startsWithReject (s : Str) : Bool :=
  REJECT_BOLD_PREFIXES.any (fun p => p.isPrefixOf (toLowerStr s))

/-- The alternatives of `CO_TAIL_RE = \b(?:SDN BHD|BHD|BERHAD)\b` with
`re.IGNORECASE` (stored lowercase, compared against the lowered input). -/
def coTailAlts : List Str := [("sdn bhd".data), ("bhd".data), ("berhad".data)]

/-- `CO_TAIL_RE.search(s) is not None`: some alternative occurs at some
position with `\b` on both sides.  Both `\b`s sit next to a letter of the
alternative, so each reduces to "adjacent input char is not a word char
(or the string edge)". -/
def coTailSearch (s : Str) : Bool :=
  let ls := toLowerStr s
  (List.range (ls.length + 1)).any (fun i =>
    coTailAlts.any (fun alt =>
      alt.isPrefixOf (ls.drop i) &&
      (i == 0 || !(isWordChar (ls.getD (i - 1) ' '))) &&
      (decide (ls.length ≤ i + alt.length) || !(isWordChar (ls.getD (i + alt.length) ' ')))))

/-- Consume a literal (given lowercase) case-insensitively; return the rest. -/
def dropLitCI : Str → Str → Option Str
  | [], s => some s
  | _ :: _, [] => none
  | p :: ps, c :: cs => if Char.toLower c = p then dropLitCI ps cs else none

/-- Consume one optional space, the ` ?` of CO_NO_RE.  In CO_NO_RE every
` ?` is followed by a pattern element that cannot match a space, so the
greedy "take the space when present" needs no backtracking. -/
def dropOptSpace (s : Str) : Str :=
  match s with
  | ' ' :: r => r
  | _ => s

/-- The character class `[A-Z0-9\-]` of CO_NO_RE under `re.IGNORECASE`. -/
def coNoClassChar (c : Char) : Bool :=
  c.isAlpha || c.isDigit || c = '-'

/-- Match the part of `CO_NO_RE = \(Co\. ?No\. ?: ?([A-Z0-9\-]+)\)` after
the opening parenthesis; returns the input rest after the closing
parenthesis when the pattern matches here. -/
def matchCoNoAfterParen (s : Str) : Option Str :=
  match dropLitCI ("co.".data) s with
  | none => none
  | some s1 =>
    match dropLitCI ("no.".data) (dropOptSpace s1) with
    | none => none
    | some s2 =>
      match dropLitCI (":".data) (dropOptSpace s2) with
      | none => none
      | some s3 =>
        let s4 := dropOptSpace s3
        let body := s4.takeWhile coNoClassChar
        if body = [] then none
        else
          match s4.drop body.length with
          | ')' :: r => some r
          | _ => none

/-- Worker of `coNoSub` (fuelled: every step consumes at least one char). -/
def coNoSubGo : Nat → Str → Str
  | 0, s => s
  | _ + 1, [] => []
  | fuel + 1, c :: cs =>
    if c = '(' then
      match matchCoNoAfterParen cs with
      | some rest => coNoSubGo fuel rest
      | none => c :: coNoSubGo fuel cs
    else c :: coNoSubGo fuel cs

/-- `CO_NO_RE.sub("", s)`: delete every non-overlapping leftmost match of
the registration-number annotation. -/
def coNoSub (s : Str) : Str := coNoSubGo s.length s

/-! ## Data model -/

/-- A span produced by the Layout Flattener: collapsed non-empty text,
boldness flag and the index of its visual line. -/
structure Span where
  text : Str
  is_bold : Bool
  line_no : Nat
  deriving DecidableEq, Repr

/-- A detected header: cleaned company name and the index (into the span
sequence) of the span whose accumulation triggered the flush. -/
abbrev Hdr := Str × Option Nat

/-- Mutable state of `extract_headers_from_bold`: collected results, the
accumulation buffer and the index of the last buffered span. -/
structure HState where
  results : List Hdr
  buf : List Str
  last_idx : Option Nat
  deriving DecidableEq, Repr

/-- `joined` contains a company marker: a legal-entity suffix word or the
literal `"(Co. No."`. -/
def companyMarkerJoined (joined : Str) : Bool :=
  coTailSearch joined || containsSub ("(Co. No.".data) joined

/-- The nested `flush_if_company` of `extract_headers_from_bold`
(doc_reader.py lines 78-93). -/
def flushIfCompany (st : HState) : HState :=
  if st.buf = [] then st
  else
    let joined := pyStrip (joinSpaces st.buf)
    if startsWithReject joined then { st with buf := [], last_idx := none }
    else if companyMarkerJoined joined then
      let clean := collapse2 (pyStrip (coNoSub joined))
      if clean ≠ [] ∧ clean.length ≤ 120 then
        { results := st.results ++ [(clean, st.last_idx)], buf := [], last_idx := none }
      else { st with buf := [], last_idx := none }
    else { st with buf := [], last_idx := none }

/-- One iteration of the span loop of `extract_headers_from_bold`
(doc_reader.py lines 95-106), at span index `i`. -/
def headerStep (st : HState) (i : Nat) (sp : Span) : HState :=
  if sp.is_bold then
    if startsWithReject sp.text then flushIfCompany st
    else
      let st2 : HState := { st with buf := st.buf ++ [sp.text], last_idx := some i }
      if coTailSearch (joinSpaces st2.buf) || containsSub ("(Co. No.".data) sp.text then
        flushIfCompany st2
      else st2
  else flushIfCompany st

/-- The span loop, tracking the enumeration index. -/
def headerLoop (st : HState) (i : Nat) : List Span → HState
  | [] => st
  | sp :: rest => headerLoop (headerStep st i sp) (i + 1) rest

/-- The final dedup loop of `extract_headers_from_bold` (lines 108-114):
`seen` set of names (modelled as a list) and `out` accumulator. -/
def dedupResultsGo (out : List Hdr) (seen : List Str) : List Hdr → List Hdr
  | [] => out
  | r :: rs =>
    if r.1 ∈ seen then dedupResultsGo out seen rs
    else dedupResultsGo (out ++ [r]) (seen ++ [r.1]) rs

/-- `extract_headers_from_bold` (doc_reader.py lines 75-114). -/
def extract_headers_from_bold (spans : List Span) : List Hdr :=
  let st := headerLoop { results := [], buf := [], last_idx := none } 0 spans
  dedupResultsGo [] [] (flushIfCompany st).results

/-! ## Block slicer -/

/-- Python slice `lines[start : stop + 1]` for natural bounds. -/
def pySlice (lines : List Str) (start stop : Nat) : List Str :=
  (lines.drop start).take (stop + 1 - start)

/-- `start_line` of header *i*: `spans[end_idx]["line_no"] + 1` when the
terminator exists (`none` models the IndexError on an invalid index), else
line 0. -/
def blockStartLine (spans : List Span) (endIdx : Option Nat) : Option Nat :=
  match endIdx with
  | none => some 0
  | some j => (spans.get? j).map (fun sp => sp.line_no + 1)

/-- The unclamped `stop_line` of header *i* (an `Int`: it is `-1` when the
next header terminates on line 0, or when there are no lines).  `none`
models the runtime error on a missing terminator or invalid span index of
header *i+1*. -/
def blockStopRaw (spans : List Span) (headers : List Hdr) (numLines : Nat) (i : Nat) :
    Option Int :=
  match headers.get? (i + 1) with
  | some (_, some j) => (spans.get? j).map (fun sp => (sp.line_no : Int) - 1)
  | some (_, none) => none
  | none => some ((numLines : Int) - 1)

/-- The clamped line range `[start_line, stop_line]` of header *i* in
`slice_company_blocks`. -/
def blockRangeAt (spans : List Span) (headers : List Hdr) (numLines : Nat) (i : Nat) :
    Option (Nat × Nat) :=
  match headers.get? i, blockStopRaw spans headers numLines i with
  | some (_, endIdx), some r =>
    (blockStartLine spans endIdx).map (fun s => (s, if r < (s : Int) then s else r.toNat))
  | _, _ => none

/-- The block of header *i*: its name together with the newline-join of the
non-empty lines of its clamped range. -/
def sliceBlockAt (spans : List Span) (headers : List Hdr) (lines : List Str) (i : Nat) :
    Option (Str × Str) :=
  match headers.get? i with
  | none => none
  | some (name, _) =>
    match blockRangeAt spans headers lines.length i with
    | none => none
    | some (s, t) => some (name, joinNL ((pySlice lines s t).filter (fun ln => ln ≠ [])))

/-- Option-valued map over a list (a `for` loop in which any index error
aborts the whole call). -/
def mapMo {α : Type} (f : Nat → Option α) : List Nat → Option (List α)
  | [] => some []
  | i :: is =>
    match f i, mapMo f is with
    | some b, some bs => some (b :: bs)
    | _, _ => none

/-- `slice_company_blocks` (doc_reader.py lines 117-131): one block per
header, in header order; `none` models an uncaught IndexError/TypeError. -/
def slice_company_blocks (headers : List Hdr) (spans : List Span) (lines : List Str) :
    Option (List (Str × Str)) :=
  mapMo (sliceBlockAt spans headers lines) (List.range headers.length)

/-- The line index of header *i*'s terminating span, when both the header
and the span index exist. -/
def termLineAt (spans : List Span) (headers : List Hdr) (i : Nat) : Option Nat :=
  match headers.get? i with
  | some (_, some j) => (spans.get? j).map Span.line_no
  | _ => none

/-- The pairwise non-overlap property of the claim: the clamped line ranges
of any two blocks are ordered and disjoint. -/
def rangesNonOverlapping (spans : List Span) (headers : List Hdr) (numLines : Nat) : Prop :=
  ∀ i j si ti sj tj, i < j →
    blockRangeAt spans headers numLines i = some (si, ti) →
    blockRangeAt spans headers numLines j = some (sj, tj) →
    ti < sj

/-! ## Layout flattener -/

/-- A raw fragment of the page-layout provider: visible text plus the style
descriptor (font-name string and numeric weight) of the dict entry. -/
structure RawSpan where
  text : Str
  font : Str
  weight : Nat
  deriving Repr

/-- A raw visual line of the layout dict. -/
structure RawLine where
  spans : List RawSpan
  deriving Repr

/-- A raw layout block; `btype` is the dict key `"type"` (0 = text). -/
structure RawBlock where
  btype : Int
  lines : List RawLine
  deriving Repr

/-- `is_bold_span` (doc_reader.py lines 44-47): `"bold" in font.lower()` or
a truthy weight at least 700. -/
def is_bold_span (s : RawSpan) : Bool :=
  containsSub ("bold".data) (toLowerStr s.font) || (s.weight != 0 && decide (700 ≤ s.weight))

/-- The collapsed text of a raw fragment, `None` when empty after
whitespace collapse (`re.sub(r"\s+", " ", text).strip()`). -/
def textOfRaw (s : RawSpan) : Option Str :=
  let t := pyStrip (collapseWS s.text)
  if t = [] then none else some t

/-- The `Span` contributed by a raw fragment on visual line `k`. -/
def spanOfRaw (k : Nat) (s : RawSpan) : Option Span :=
  (textOfRaw s).map (fun t => { text := t, is_bold := is_bold_span s, line_no := k })

/-- The reconstructed text of one visual line:
`" ".join(acc_line).strip()` over its non-empty collapsed fragments. -/
def lineTextOfRaw (l : RawLine) : Str :=
  pyStrip (joinSpaces (l.spans.filterMap textOfRaw))

/-- The spans of a tail of visual lines, the first having index `k`:
renders the `line_no` counter of the Python loop. -/
def flattenSpansFrom (k : Nat) : List RawLine → List Span
  | [] => []
  | l :: ls => l.spans.filterMap (spanOfRaw k) ++ flattenSpansFrom (k + 1) ls

/-- The visual lines of the text blocks (`type == 0`), in document order:
the lines enumerated by the Python loop's `line_no` counter. -/
def textLinesOf (blocks : List RawBlock) : List RawLine :=
  (blocks.filter (fun b => b.btype == 0)).flatMap RawBlock.lines

/-- `get_flat_spans_with_lines` (doc_reader.py lines 50-72): the flat span
sequence and the parallel list of reconstructed line texts. -/
def get_flat_spans_with_lines (blocks : List RawBlock) : List Span × List Str :=
  (flattenSpansFrom 0 (textLinesOf blocks), (textLinesOf blocks).map lineTextOfRaw)

/-! ## Contact extractor -/

/-- Newline characters, the class `[\n\r]` excluded from TEL_LABEL_RE's
captured tail. -/
def isNL (c : Char) : Bool := c = '\n' || c = '\r'

/-- Consume one optional dot, the `\.?` of TEL_LABEL_RE.  Each `\.?` there
is followed by `\s*` and a pattern element that cannot match a dot, so
taking the dot when present needs no backtracking. -/
def dropOptDot (s : Str) : Str :=
  match s with
  | '.' :: r => r
  | _ => s

/-- The greedy capture `([^\n\r]+)` starting here. -/
def groupNonNL (s : Str) : Str := s.takeWhile (fun c => !isNL c)

/-- `\s*([^\n\r]+)` with the regex engine's backtracking: try consuming
`k` whitespace characters (greedy, `k` from the maximal run downwards) and
then the non-empty greedy group.  Returns the group and the rest. -/
def wsStarGroupAux : Nat → Str → Option (Str × Str)
  | 0, s =>
    let g := groupNonNL s
    if g = [] then none else some (g, s.drop g.length)
  | k + 1, s =>
    let g := groupNonNL (s.drop (k + 1))
    if g = [] then wsStarGroupAux k s
    else some (g, s.drop (k + 1 + g.length))

/-- The `\s*([^\n\r]+)` suffix of TEL_LABEL_RE. -/
def wsStarGroup (s : Str) : Option (Str × Str) :=
  wsStarGroupAux (s.takeWhile isWS).length s

/-- Match `TEL_LABEL_RE = Tel\.?\s*No\.?\s*:\s*([^\n\r]+)` (IGNORECASE) at
the start of `s`; returns the captured tail and the rest after the match. -/
def matchTelAt (s : Str) : Option (Str × Str) :=
  match dropLitCI ("tel".data) s with
  | none => none
  | some s1 =>
    match dropLitCI ("no".data) ((dropOptDot s1).dropWhile isWS) with
    | none => none
    | some s2 =>
      match dropLitCI (":".data) ((dropOptDot s2).dropWhile isWS) with
      | none => none
      | some s3 => wsStarGroup s3

/-- Worker of `telFindAll` (fuelled: a match consumes at least the three
characters of `tel`, a non-match advances one position). -/
def telFindAllGo : Nat → Str → List Str
  | 0, _ => []
  | _ + 1, [] => []
  | fuel + 1, c :: cs =>
    match matchTelAt (c :: cs) with
    | some (g, rest) => g :: telFindAllGo fuel rest
    | none => telFindAllGo fuel cs

/-- `TEL_LABEL_RE.finditer(s)`, collecting `m.group(1)` of each
non-overlapping leftmost match. -/
def telFindAll (s : Str) : List Str := telFindAllGo s.length s

/-- Require `n` digit characters here (`\d{n}` as one greedy step);
returns the rest. -/
def takeDigits (n : Nat) (s : Str) : Option Str :=
  if (s.take n).length = n ∧ (s.take n).all Char.isDigit then some (s.drop n) else none

/-- The suffixes reachable by `(?:\+?6?0)?` of PHONE_RE, in the engine's
backtracking order: `+60`, `+0`, `60`, `0`, then the empty alternative. -/
def phonePrefixOpts (s : Str) : List Str :=
  (match s with | '+' :: '6' :: '0' :: r => [r] | _ => []) ++
  (match s with | '+' :: '0' :: r => [r] | _ => []) ++
  (match s with | '6' :: '0' :: r => [r] | _ => []) ++
  (match s with | '0' :: r => [r] | _ => []) ++ [s]

/-- Match the body of `PHONE_RE = \b(?:\+?6?0)?\d{2,3}-?\d{5,8}\b` at the
start of `s` (the leading `\b` is checked by the caller); returns the rest
after the match.  Greedy counted repeats try the larger count first; the
final check is the trailing `\b` (the last matched char is a digit, so it
requires a non-word char or the end). -/
def phoneMatchCore (s : Str) : Option Str :=
  (phonePrefixOpts s).findSome? (fun s1 =>
    [3, 2].findSome? (fun d1 =>
      (takeDigits d1 s1).bind (fun s2 =>
        (match s2 with | '-' :: r => [r, s2] | _ => [s2]).findSome? (fun s3 =>
          [8, 7, 6, 5].findSome? (fun d2 =>
            (takeDigits d2 s3).bind (fun s4 =>
              match s4 with
              | [] => some s4
              | c :: _ => if isWordChar c then none else some s4))))))

/-- Match PHONE_RE at the start of `s`; returns the matched text and rest. -/
def phoneMatchAt (s : Str) : Option (Str × Str) :=
  (phoneMatchCore s).map (fun rest => (s.take (s.length - rest.length), rest))

/-- Does `\b` hold between the previous character (`none` = string edge)
and the current one? -/
def boundaryOk (prev : Option Char) (c : Char) : Bool :=
  match prev with
  | none => isWordChar c
  | some p => isWordChar p != isWordChar c

/-- Worker of `phoneFindAll` (fuelled: a match consumes at least seven
characters, a non-match advances one position); `prev` is the character
before the current scan position, for the `\b` test. -/
def phoneScanGo : Nat → Option Char → Str → List Str
  | 0, _, _ => []
  | _ + 1, _, [] => []
  | fuel + 1, prev, c :: cs =>
    if boundaryOk prev c then
      match phoneMatchAt (c :: cs) with
      | some (m, rest) => m :: phoneScanGo fuel (some (m.getLastD c)) rest
      | none => phoneScanGo fuel (some c) cs
    else phoneScanGo fuel (some c) cs

/-- `PHONE_RE.findall(s)`: all non-overlapping leftmost matches. -/
def phoneFindAll (s : Str) : List Str := phoneScanGo s.length none s

/-- The local-part class `[A-Za-z0-9._%+-]` of EMAIL_BREAK_RE. -/
def localChar (c : Char) : Bool :=
  c.isAlpha || c.isDigit || c = '.' || c = '_' || c = '%' || c = '+' || c = '-'

/-- The domain class `[A-Za-z0-9.-]` of EMAIL_BREAK_RE. -/
def domChar (c : Char) : Bool :=
  c.isAlpha || c.isDigit || c = '.' || c = '-'

/-- Match the EMAIL_BREAK_RE suffix after the chosen domain:
`(?:\s+|\n)?\.(?:\s+|\n)?([A-Za-z]{2,})(?:\.(?:\s+|\n)?([A-Za-z]{2,}))?`.
Returns `((tld1, tld2?), rest)`.  The whitespace groups are deterministic
here (whitespace can match neither the following literal dot nor a
letter), and the optional second group is simply skipped when it fails. -/
def emailTailAt (s : Str) : Option ((Str × Option Str) × Str) :=
  match s.dropWhile isWS with
  | '.' :: s2 =>
    let s3 := s2.dropWhile isWS
    let tld1 := s3.takeWhile Char.isAlpha
    if tld1.length < 2 then none
    else
      let s4 := s3.drop tld1.length
      match s4 with
      | '.' :: r =>
        let r1 := r.dropWhile isWS
        let tld2 := r1.takeWhile Char.isAlpha
        if tld2.length < 2 then some ((tld1, none), s4)
        else some ((tld1, some tld2), r1.drop tld2.length)
      | _ => some ((tld1, none), s4)
  | _ => none

/-- Backtracking over the greedy domain `([A-Za-z0-9.-]+)`: try the first
`k` characters of the maximal class run (`k` from the run length down to
1) and require the tail pattern to match right after.  Returns
`(domain, (tld1, tld2?), rest)`. -/
def emailDomLoop (s4 : Str) : Nat → Option (Str × (Str × Option Str) × Str)
  | 0 => none
  | k + 1 =>
    match emailTailAt (s4.drop (k + 1)) with
    | some (t, rest) => some (s4.take (k + 1), t, rest)
    | none => emailDomLoop s4 k

/-- Match EMAIL_BREAK_RE at the start of `s`; returns the four capture
groups `(local, domain, tld1, tld2?)` and the rest after the match.  The
local part is the maximal class run (no shorter run can be followed by
optional whitespace and `@`, since neither is a local-class char), and
likewise the whitespace around `@` is deterministic. -/
def emailMatchAt (s : Str) : Option ((Str × Str × Str × Option Str) × Str) :=
  let lcl := s.takeWhile localChar
  if lcl = [] then none
  else
    match (s.drop lcl.length).dropWhile isWS with
    | '@' :: s3 =>
      let s4 := s3.dropWhile isWS
      let dom0 := s4.takeWhile domChar
      match emailDomLoop s4 dom0.length with
      | some (dom, (tld1, tld2), rest) => some ((lcl, dom, tld1, tld2), rest)
      | none => none
    | _ => none

/-- Decidability of equality on EMAIL_BREAK_RE capture-group tuples
(registered stepwise to keep instance search small). -/
instance : DecidableEq (Str × Str × Str × Option Str) := inferInstance

/-- Decidability of equality on EMAIL_BREAK_RE match results. -/
instance : DecidableEq ((Str × Str × Str × Option Str) × Str) := inferInstance

/-- Worker of `emailScan` (fuelled: a match consumes at least one char,
a non-match advances one position). -/
def emailScanGo : Nat → Str → List (Str × Str × Str × Option Str)
  | 0, _ => []
  | _ + 1, [] => []
  | fuel + 1, c :: cs =>
    match emailMatchAt (c :: cs) with
    | some (g, rest) => g :: emailScanGo fuel rest
    | none => emailScanGo fuel cs

/-- `EMAIL_BREAK_RE.finditer(s)`: the capture groups of every
non-overlapping leftmost match. -/
def emailScan (s : Str) : List (Str × Str × Str × Option Str) := emailScanGo s.length s

/-- Reassemble one match's groups as `local@domain.tld1[.tld2]`, lowered. -/
def emailOfGroups (g : Str × Str × Str × Option Str) : Str :=
  toLowerStr (g.1 ++ ('@' :: g.2.1) ++ ('.' :: g.2.2.1) ++
    (match g.2.2.2 with
     | some t2 => '.' :: t2
     | none => []))

/-- `normalize_emails` (doc_reader.py lines 137-145). -/
def normalize_emails (text : Str) : List Str :=
  dedup_preserve_order ((emailScan text).map emailOfGroups)

/-- `extract_contacts_from_block` (doc_reader.py lines 148-156): phones
from the tails of the telephone-label matches, then emails from the whole
block text. -/
def extract_contacts_from_block (block_text : Str) : List Str × List Str :=
  (dedup_preserve_order ((telFindAll block_text).flatMap phoneFindAll),
   normalize_emails block_text)

/-! ## Concrete page fragments used to instantiate the claims -/

/-- The block text of the spec's Contact Extractor example. -/
def exC5text : Str := ("Tel No.: 03-12345678, 019-8765432\nsome.person @ example . com".data)

/-- A bold run joining to "ACME SDN BHD". -/
def exAcme : List Span :=
  [{ text := ("ACME".data), is_bold := true, line_no := 0 },
   { text := ("SDN BHD".data), is_bold := true, line_no := 0 }]

/-- A bold run followed immediately by a bold registration annotation. -/
def exCoNo : List Span :=
  [{ text := ("ACME TRADING".data), is_bold := true, line_no := 0 },
   { text := ("(Co. No.: 123456-A)".data), is_bold := true, line_no := 0 }]

/-- A bold span with the registration annotation in the middle of the name
(removal leaves a double space). -/
def exMid : List Span :=
  [{ text := ("ACME (Co. No.: 123456-A) SDN BHD".data), is_bold := true, line_no := 0 }]

/-- A lone bold rejection-prefix span. -/
def exRej : List Span :=
  [{ text := ("Management".data), is_bold := true, line_no := 0 }]

/-- Spans for the C3 counterexample: the registration marker is split over
two bold spans (so no per-span check fires) and the buffer is still open
when the bold rejection-prefix span arrives. -/
def exC3spans : List Span :=
  [{ text := ("ACME (Co.".data), is_bold := true, line_no := 0 },
   { text := ("No.: 1)".data), is_bold := true, line_no := 0 },
   { text := ("Management team".data), is_bold := true, line_no := 1 }]

/-- Detector state with an open marker-bearing buffer, as it is right
before span 2 of `exC3spans`. -/
def exC3state : HState :=
  { results := [], buf := [("ACME (Co.".data), ("No.: 1)".data)], last_idx := some 1 }

/-- Detector state with an open buffer that has no company marker. -/
def exPlainState : HState :=
  { results := [], buf := [("Foo Enterprise".data)], last_idx := some 4 }

/-- The rejection-prefix span of `exC3spans`. -/
def exRejSpan : Span := { text := ("Management team".data), is_bold := true, line_no := 1 }

/-- Spans for the C1 counterexample: two company headers terminating on the
same visual line. -/
def exC1spans : List Span :=
  [{ text := ("A SDN BHD".data), is_bold := true, line_no := 0 },
   { text := ("B SDN BHD".data), is_bold := true, line_no := 0 },
   { text := ("body".data), is_bold := false, line_no := 1 }]

/-- Lines of the C1 counterexample page. -/
def exC1lines : List Str := [("A SDN BHD B SDN BHD".data), ("body".data)]

/-- Spans with the same company header at two different positions. -/
def exDupSpans : List Span :=
  [{ text := ("A SDN BHD".data), is_bold := true, line_no := 0 },
   { text := ("body1".data), is_bold := false, line_no := 1 },
   { text := ("A SDN BHD".data), is_bold := true, line_no := 2 },
   { text := ("body2".data), is_bold := false, line_no := 3 }]

/-- Lines of the duplicate-header page. -/
def exDupLines : List Str :=
  [("A SDN BHD".data), ("body1".data), ("A SDN BHD".data), ("body2".data)]

/-- A well-formed two-company page (terminating lines strictly increase). -/
def exTwoSpans : List Span :=
  [{ text := ("A SDN BHD".data), is_bold := true, line_no := 0 },
   { text := ("a-body".data), is_bold := false, line_no := 1 },
   { text := ("B SDN BHD".data), is_bold := true, line_no := 2 },
   { text := ("b-body".data), is_bold := false, line_no := 3 }]

/-- Lines of the two-company page. -/
def exTwoLines : List Str :=
  [("A SDN BHD".data), ("a-body".data), ("B SDN BHD".data), ("b-body".data)]

/-- A page whose only header terminates on the last line. -/
def exC10spans : List Span :=
  [{ text := ("A SDN BHD".data), is_bold := true, line_no := 1 }]

/-- Lines of the last-line-header page. -/
def exC10lines : List Str := [("x".data), ("A SDN BHD".data)]

/-- Block text with a registration number but no telephone label and no
email. -/
def exC6text : Str := ("Co. No.: 123456-A".data)

/-- The headers detected on the two-company page. -/
def exTwoHeaders : List Hdr := extract_headers_from_bold exTwoSpans

/-- The all-whitespace raw line of `exBlocks`. -/
def exEmptyLine : RawLine :=
  { spans := [{ text := ("   ".data), font := ("Arial".data), weight := 0 }] }

/-- The bold span that `exBlocks` flattens to on line 0. -/
def exBoldSpan : Span := { text := ("A SDN BHD".data), is_bold := true, line_no := 0 }

/-- A raw layout: a non-text block (skipped), then a text block whose
second visual line has only whitespace fragments. -/
def exBlocks : List RawBlock :=
  [{ btype := 1, lines := [{ spans := [{ text := ("img".data), font := [], weight := 0 }] }] },
   { btype := 0,
     lines :=
      [{ spans := [{ text := ("A  SDN\tBHD".data), font := ("Arial-Bold".data), weight := 0 },
                   { text := ("  ".data), font := ("Arial".data), weight := 400 }] },
       { spans := [{ text := ("   ".data), font := ("Arial".data), weight := 0 }] },
       { spans := [{ text := ("Tel No.: 03-1234567".data), font := ("Arial".data), weight := 700 }] }] }]

/-! ## Lemmas about order-preserving deduplication -/

/-- On an input of fresh, pairwise-distinct elements the dedup loop just
appends the input to its accumulator. -/
theorem dedupGo_eq_append {α : Type} [DecidableEq α] :
    ∀ (xs seen out : List α), (∀ x ∈ xs, x ∉ seen) → xs.Nodup →
      dedupGo seen out xs = out ++ xs := by
  intro xs
  induction xs with
  | nil => intro seen out _ _; simp [dedupGo]
  | cons x xs ih =>
    intro seen out hfresh hnd
    have hx : x ∉ seen := hfresh x (by simp)
    rw [List.nodup_cons] at hnd
    have : dedupGo (seen ++ [x]) (out ++ [x]) xs = (out ++ [x]) ++ xs := by
      refine ih (seen ++ [x]) (out ++ [x]) ?_ hnd.2
      intro y hy
      simp only [List.mem_append, List.mem_singleton]
      rintro (hys | rfl)
      · exact hfresh y (by simp [hy]) hys
      · exact hnd.1 hy
    simp [dedupGo, hx, this]

/-- The dedup loop keeps its accumulator duplicate-free, provided every
accumulated element is also recorded in `seen`. -/
theorem dedupGo_nodup {α : Type} [DecidableEq α] :
    ∀ (xs seen out : List α), out.Nodup → (∀ x ∈ out, x ∈ seen) →
      (dedupGo seen out xs).Nodup := by
  intro xs
  induction xs with
  | nil => intro seen out hnd _; simpa [dedupGo] using hnd
  | cons x xs ih =>
    intro seen out hnd hsub
    by_cases hx : x ∈ seen
    · simpa [dedupGo, hx] using ih seen out hnd hsub
    · have hxout : x ∉ out := fun hmem => hx (hsub x hmem)
      have hnd2 : (out ++ [x]).Nodup := by
        simp [List.nodup_append, hnd, hxout]
      have hsub2 : ∀ y ∈ out ++ [x], y ∈ seen ++ [x] := by
        intro y hy
        simp only [List.mem_append, List.mem_singleton] at hy ⊢
        rcases hy with hy | rfl
        · exact Or.inl (hsub y hy)
        · exact Or.inr rfl
      simpa [dedupGo, hx] using ih (seen ++ [x]) (out ++ [x]) hnd2 hsub2

/-- The output of `dedup_preserve_order` has no duplicates. -/
theorem dedup_preserve_order_nodup {α : Type} [DecidableEq α] (l : List α) :
    (dedup_preserve_order l).Nodup :=
  dedupGo_nodup l [] [] List.nodup_nil (by simp)

/-- `dedup_preserve_order` leaves a duplicate-free list unchanged. -/
theorem dedup_preserve_order_of_nodup {α : Type} [DecidableEq α] (l : List α)
    (h : l.Nodup) : dedup_preserve_order l = l := by
  simpa [dedup_preserve_order] using dedupGo_eq_append l [] [] (by simp) h

/-! ## Lemmas about the header-detector state machine -/

/-- Invariant carried through `extract_headers_from_bold`, relative to the
number `n` of spans: every recorded header has a valid terminating index
and a non-empty name of at most 120 characters, and an open buffer always
has a valid `last_idx`. -/
def HInv (n : Nat) (st : HState) : Prop :=
  (∀ r ∈ st.results, (∃ j, r.2 = some j ∧ j < n) ∧ r.1 ≠ [] ∧ r.1.length ≤ 120) ∧
  (st.buf ≠ [] → ∃ j, st.last_idx = some j ∧ j < n)

/-- Flushing preserves the invariant. -/
theorem HInv_flush {n : Nat} {st : HState} (h : HInv n st) : HInv n (flushIfCompany st) := by
  obtain ⟨hres, hbuf⟩ := h
  unfold flushIfCompany
  split
  · exact ⟨hres, hbuf⟩
  next hne =>
    dsimp only
    split
    · exact ⟨hres, by simp⟩
    · split
      · split
        next hclean =>
          refine ⟨?_, by simp⟩
          intro r hr
          simp only [List.mem_append, List.mem_singleton] at hr
          rcases hr with hr | rfl
          · exact hres r hr
          · exact ⟨hbuf hne, hclean.1, hclean.2⟩
        · exact ⟨hres, by simp⟩
      · exact ⟨hres, by simp⟩

/-- One loop step at an in-range index preserves the invariant. -/
theorem HInv_step {n : Nat} {st : HState} {i : Nat} {sp : Span} (h : HInv n st)
    (hi : i < n) : HInv n (headerStep st i sp) := by
  obtain ⟨hres, hbuf⟩ := h
  unfold headerStep
  split
  · split
    · exact HInv_flush ⟨hres, hbuf⟩
    · have h2 : HInv n { st with buf := st.buf ++ [sp.text], last_idx := some i } :=
        ⟨hres, fun _ => ⟨i, rfl, hi⟩⟩
      dsimp only
      split
      · exact HInv_flush h2
      · exact h2
  · exact HInv_flush ⟨hres, hbuf⟩

/-- The whole span loop preserves the invariant when it stays in range. -/
theorem HInv_loop {n : Nat} :
    ∀ (sps : List Span) (st : HState) (i : Nat), HInv n st → i + sps.length ≤ n →
      HInv n (headerLoop st i sps) := by
  intro sps
  induction sps with
  | nil => intro st i h _; exact h
  | cons sp rest ih =>
    intro st i h hle
    simp only [List.length_cons] at hle
    exact ih (headerStep st i sp) (i + 1) (HInv_step h (by omega)) (by omega)

/-- Every element of the dedup loop's output is an accumulated element or
an input element. -/
theorem dedupResultsGo_mem :
    ∀ (rs out : List Hdr) (seen : List Str) (r : Hdr),
      r ∈ dedupResultsGo out seen rs → r ∈ out ∨ r ∈ rs := by
  intro rs
  induction rs with
  | nil => intro out seen r h; simp only [dedupResultsGo] at h; exact Or.inl h
  | cons x rs ih =>
    intro out seen r h
    simp only [dedupResultsGo] at h
    split at h
    · rcases ih out seen r h with h1 | h1
      · exact Or.inl h1
      · exact Or.inr (by simp [h1])
    · rcases ih (out ++ [x]) (seen ++ [x.1]) r h with h1 | h1
      · simp only [List.mem_append, List.mem_singleton] at h1
        rcases h1 with h1 | rfl
        · exact Or.inl h1
        · exact Or.inr (by simp)
      · exact Or.inr (by simp [h1])

/-- The header dedup loop keeps the names of its accumulator
duplicate-free, provided every accumulated name is in `seen`. -/
theorem dedupResultsGo_names_nodup :
    ∀ (rs out : List Hdr) (seen : List Str), (out.map Prod.fst).Nodup →
      (∀ nm ∈ out.map Prod.fst, nm ∈ seen) →
      ((dedupResultsGo out seen rs).map Prod.fst).Nodup := by
  intro rs
  induction rs with
  | nil => intro out seen hnd _; simpa [dedupResultsGo] using hnd
  | cons x rs ih =>
    intro out seen hnd hsub
    by_cases hx : x.1 ∈ seen
    · simpa [dedupResultsGo, hx] using ih out seen hnd hsub
    · have hxout : x.1 ∉ out.map Prod.fst := fun hmem => hx (hsub x.1 hmem)
      have hnd2 : ((out ++ [x]).map Prod.fst).Nodup := by
        simp only [List.map_append, List.map_cons, List.map_nil]
        simp [List.nodup_append, hnd, hxout]
      have hsub2 : ∀ nm ∈ (out ++ [x]).map Prod.fst, nm ∈ seen ++ [x.1] := by
        intro nm hnm
        simp only [List.map_append, List.map_cons, List.map_nil, List.mem_append,
          List.mem_singleton] at hnm ⊢
        rcases hnm with hnm | hnm
        · exact Or.inl (hsub nm hnm)
        · exact Or.inr hnm
      simpa [dedupResultsGo, hx] using ih (out ++ [x]) (seen ++ [x.1]) hnd2 hsub2

/-- Every header produced by the detector has a valid terminating span
index and a non-empty name of at most 120 characters. -/
theorem extract_headers_inv (spans : List Span) :
    ∀ r ∈ extract_headers_from_bold spans,
      (∃ j, r.2 = some j ∧ j < spans.length) ∧ r.1 ≠ [] ∧ r.1.length ≤ 120 := by
  intro r hr
  have h0 : HInv spans.length { results := ([] : List Hdr), buf := [], last_idx := none } :=
    ⟨by simp, by simp⟩
  have h1 := HInv_loop spans { results := [], buf := [], last_idx := none } 0 h0 (by omega)
  have h2 := HInv_flush h1
  unfold extract_headers_from_bold at hr
  rcases dedupResultsGo_mem _ [] [] r hr with h3 | h3
  · simp at h3
  · exact h2.1 r h3

/-! ## Lemmas about the block slicer -/

/-- `mapMo` succeeds when every component does. -/
theorem mapMo_isSome {α : Type} (f : Nat → Option α) :
    ∀ l : List Nat, (∀ a ∈ l, (f a).isSome) → (mapMo f l).isSome := by
  intro l
  induction l with
  | nil => intro _; simp [mapMo]
  | cons a l ih =>
    intro h
    have ha := h a (by simp)
    have hl := ih (fun x hx => h x (by simp [hx]))
    rcases hfa : f a with _ | b
    · rw [hfa] at ha; simp at ha
    rcases hml : mapMo f l with _ | bs
    · rw [hml] at hl; simp at hl
    simp [mapMo, hfa, hml]

/-- A successful `mapMo` has the input's length and is positionally the
image of the input. -/
theorem mapMo_get {α : Type} (f : Nat → Option α) :
    ∀ (l : List Nat) (bs : List α), mapMo f l = some bs →
      bs.length = l.length ∧
      ∀ k a, l.get? k = some a → ∃ b, f a = some b ∧ bs.get? k = some b := by
  intro l
  induction l with
  | nil =>
    intro bs h
    simp only [mapMo, Option.some.injEq] at h
    subst h
    exact ⟨rfl, by intro k a h; simp at h⟩
  | cons a l ih =>
    intro bs h
    simp only [mapMo] at h
    rcases hfa : f a with _ | b <;> rw [hfa] at h
    · exact absurd h (by simp)
    rcases hml : mapMo f l with _ | bs2 <;> rw [hml] at h
    · exact absurd h (by simp)
    simp only [Option.some.injEq] at h
    subst h
    obtain ⟨hlen, hget⟩ := ih bs2 hml
    refine ⟨by simp [hlen], ?_⟩
    intro k x hk
    match k with
    | 0 =>
      simp only [List.get?_cons_zero, Option.some.injEq] at hk
      subst hk
      exact ⟨b, hfa, rfl⟩
    | k + 1 =>
      simp only [List.get?_cons_succ] at hk ⊢
      exact hget k x hk

/-- Equation for `termLineAt` at a header with a terminator. -/
theorem termLineAt_eq {spans : List Span} {headers : List Hdr} {i j : Nat} {nm : Str}
    (h1 : headers.get? i = some (nm, some j)) :
    termLineAt spans headers i = (spans.get? j).map Span.line_no := by
  unfold termLineAt
  rw [h1]

/-- Equation for `termLineAt` past the header list. -/
theorem termLineAt_none {spans : List Span} {headers : List Hdr} {i : Nat}
    (h1 : headers.get? i = none) : termLineAt spans headers i = none := by
  unfold termLineAt
  rw [h1]

/-- Equation for `termLineAt` at a terminator-less header. -/
theorem termLineAt_noTerm {spans : List Span} {headers : List Hdr} {i : Nat} {nm : Str}
    (h1 : headers.get? i = some (nm, none)) : termLineAt spans headers i = none := by
  unfold termLineAt
  rw [h1]

/-- Unfold a successful `termLineAt`. -/
theorem termLineAt_inv {spans : List Span} {headers : List Hdr} {i L : Nat}
    (h : termLineAt spans headers i = some L) :
    ∃ nm j sp, headers.get? i = some (nm, some j) ∧ spans.get? j = some sp ∧
      sp.line_no = L := by
  rcases h1 : headers.get? i with _ | ⟨nm, e⟩
  · rw [termLineAt_none h1] at h; simp at h
  rcases e with _ | j
  · rw [termLineAt_noTerm h1] at h; simp at h
  rw [termLineAt_eq h1] at h
  rcases h2 : spans.get? j with _ | sp <;> rw [h2] at h
  · simp at h
  · exact ⟨nm, j, sp, rfl, h2, by simpa using h⟩

/-- A defined terminating line means the header index is in range. -/
theorem termLineAt_lt {spans : List Span} {headers : List Hdr} {i L : Nat}
    (h : termLineAt spans headers i = some L) : i < headers.length := by
  obtain ⟨nm, j, sp, h1, _, _⟩ := termLineAt_inv h
  exact List.get?_eq_some.mp h1 |>.choose

/-- Equation for `blockStopRaw` when the next header exists. -/
theorem blockStopRaw_eq_mid {spans : List Span} {headers : List Hdr}
    {numLines i j2 : Nat} {nm2 : Str}
    (h : headers.get? (i + 1) = some (nm2, some j2)) :
    blockStopRaw spans headers numLines i =
      (spans.get? j2).map (fun sp => (sp.line_no : Int) - 1) := by
  unfold blockStopRaw
  rw [h]

/-- Equation for `blockStopRaw` at the final header. -/
theorem blockStopRaw_eq_last {spans : List Span} {headers : List Hdr}
    {numLines i : Nat} (h : headers.get? (i + 1) = none) :
    blockStopRaw spans headers numLines i = some ((numLines : Int) - 1) := by
  unfold blockStopRaw
  rw [h]

/-- Equation for `blockRangeAt` once all three lookups are known. -/
theorem blockRangeAt_eq {spans : List Span} {headers : List Hdr}
    {numLines i j : Nat} {nm : Str} {sp : Span} {r : Int}
    (h1 : headers.get? i = some (nm, some j)) (hs : spans.get? j = some sp)
    (hr : blockStopRaw spans headers numLines i = some r) :
    blockRangeAt spans headers numLines i =
      some (sp.line_no + 1,
        if r < ((sp.line_no + 1 : Nat) : Int) then sp.line_no + 1 else r.toNat) := by
  simp only [blockRangeAt, h1, hr, blockStartLine, hs, Option.map_some']

/-- A `blockRangeAt` that fails on `blockStopRaw`. -/
theorem blockRangeAt_stop_none {spans : List Span} {headers : List Hdr}
    {numLines i j : Nat} {nm : Str}
    (h1 : headers.get? i = some (nm, some j))
    (hr : blockStopRaw spans headers numLines i = none) :
    blockRangeAt spans headers numLines i = none := by
  simp only [blockRangeAt, h1, hr]

/-- The block range of a header whose successor exists: it starts one line
below the header's terminating line and stops just before the successor's
terminating line, clamped to the start. -/
theorem blockRangeAt_formula_mid {spans : List Span} {headers : List Hdr}
    {numLines i L L' : Nat}
    (h1 : termLineAt spans headers i = some L)
    (h2 : termLineAt spans headers (i + 1) = some L') :
    blockRangeAt spans headers numLines i =
      some (L + 1, if L' ≤ L + 1 then L + 1 else L' - 1) := by
  obtain ⟨nm, j, sp, hh1, hs1, hL1⟩ := termLineAt_inv h1
  obtain ⟨nm2, j2, sp2, hh2, hs2, hL2⟩ := termLineAt_inv h2
  have e1 : blockStopRaw spans headers numLines i = some ((sp2.line_no : Int) - 1) := by
    rw [blockStopRaw_eq_mid hh2, hs2]
    rfl
  rw [blockRangeAt_eq hh1 hs1 e1, hL1, hL2]
  refine congrArg some ?_
  rw [Prod.mk.injEq]
  refine ⟨rfl, ?_⟩
  split_ifs <;> omega

/-- The block range of the final header: it stops at the last page line,
clamped to the start. -/
theorem blockRangeAt_formula_last {spans : List Span} {headers : List Hdr}
    {numLines i L : Nat}
    (h1 : termLineAt spans headers i = some L)
    (h2 : headers.get? (i + 1) = none) :
    blockRangeAt spans headers numLines i =
      some (L + 1, if numLines ≤ L + 1 then L + 1 else numLines - 1) := by
  obtain ⟨nm, j, sp, hh1, hs1, hL1⟩ := termLineAt_inv h1
  rw [blockRangeAt_eq hh1 hs1 (blockStopRaw_eq_last h2), hL1]
  refine congrArg some ?_
  rw [Prod.mk.injEq]
  refine ⟨rfl, ?_⟩
  split_ifs <;> omega

/-- A successful block range always starts one line below the header's
terminating line. -/
theorem blockRangeAt_fst {spans : List Span} {headers : List Hdr}
    {numLines i L s t : Nat}
    (h1 : termLineAt spans headers i = some L)
    (h2 : blockRangeAt spans headers numLines i = some (s, t)) : s = L + 1 := by
  obtain ⟨nm, j, sp, hh1, hs1, hL1⟩ := termLineAt_inv h1
  rcases hr : blockStopRaw spans headers numLines i with _ | r
  · rw [blockRangeAt_stop_none hh1 hr] at h2
    exact absurd h2 (by simp)
  · rw [blockRangeAt_eq hh1 hs1 hr] at h2
    simp only [Option.some.injEq, Prod.mk.injEq] at h2
    omega

/-- Equation for `sliceBlockAt` once the header and its range are known. -/
theorem sliceBlockAt_eq {spans : List Span} {headers : List Hdr} {lines : List Str}
    {i s t : Nat} {nm : Str} {e : Option Nat}
    (h1 : headers.get? i = some (nm, e))
    (h2 : blockRangeAt spans headers lines.length i = some (s, t)) :
    sliceBlockAt spans headers lines i =
      some (nm, joinNL ((pySlice lines s t).filter (fun ln => ln ≠ []))) := by
  unfold sliceBlockAt
  rw [h1, h2]

/-- Terminating lines are strictly increasing across any gap when they are
strictly increasing between defined neighbours. -/
theorem termLineAt_chain {spans : List Span} {headers : List Hdr}
    (hval : ∀ i, i < headers.length → ∃ L, termLineAt spans headers i = some L)
    (hmono : ∀ i L L', termLineAt spans headers i = some L →
      termLineAt spans headers (i + 1) = some L' → L < L') :
    ∀ d i L L', termLineAt spans headers i = some L →
      termLineAt spans headers (i + d + 1) = some L' → L < L' := by
  intro d
  induction d with
  | zero => intro i L L' h1 h2; exact hmono i L L' h1 h2
  | succ d ih =>
    intro i L L' h1 h2
    have hlt : i + 1 < headers.length := by
      have := termLineAt_lt h2
      omega
    obtain ⟨L1, hL1⟩ := hval (i + 1) hlt
    have step := hmono i L L1 h1 hL1
    have rest := ih (i + 1) L1 L' hL1 (by
      have : i + 1 + d + 1 = i + (d + 1) + 1 := by omega
      rw [this]
      exact h2)
    omega

/-! ## Lemmas about the layout flattener -/

/-- Spans contributed by one raw line carry that line's index. -/
theorem spanOfRaw_line_no {k : Nat} {sp : Span} {ss : List RawSpan}
    (h : sp ∈ ss.filterMap (spanOfRaw k)) : sp.line_no = k := by
  obtain ⟨raw, _, hraw⟩ := List.mem_filterMap.mp h
  unfold spanOfRaw at hraw
  rcases ht : textOfRaw raw with _ | t <;> rw [ht] at hraw
  · simp at hraw
  · simp only [Option.map_some', Option.some.injEq] at hraw
    rw [← hraw]

/-- The texts of the spans contributed by one raw line are exactly the
non-empty collapsed fragment texts of that line. -/
theorem spanOfRaw_texts (k : Nat) :
    ∀ ss : List RawSpan, (ss.filterMap (spanOfRaw k)).map Span.text = ss.filterMap textOfRaw := by
  intro ss
  induction ss with
  | nil => rfl
  | cons s ss ih =>
    unfold spanOfRaw
    rcases ht : textOfRaw s with _ | t
    · simpa [List.filterMap_cons, ht, spanOfRaw] using ih
    · simpa [List.filterMap_cons, ht, spanOfRaw] using ih

/-- Every span of `flattenSpansFrom k ls` has a line index in `[k, k + ls.length)`. -/
theorem flattenSpansFrom_mem :
    ∀ (ls : List RawLine) (k : Nat) (sp : Span), sp ∈ flattenSpansFrom k ls →
      k ≤ sp.line_no ∧ sp.line_no < k + ls.length := by
  intro ls
  induction ls with
  | nil => intro k sp h; simp [flattenSpansFrom] at h
  | cons l ls ih =>
    intro k sp h
    simp only [flattenSpansFrom, List.mem_append] at h
    rcases h with h | h
    · have := spanOfRaw_line_no h
      simp [this]
    · have := ih (k + 1) sp h
      constructor <;> [omega; simpa [List.length_cons] using by omega]

/-- Span line indices are non-decreasing in sequence order. -/
theorem flattenSpansFrom_pairwise :
    ∀ (ls : List RawLine) (k : Nat),
      List.Pairwise (fun a b => a.line_no ≤ b.line_no) (flattenSpansFrom k ls) := by
  intro ls
  induction ls with
  | nil => intro k; simp [flattenSpansFrom]
  | cons l ls ih =>
    intro k
    unfold flattenSpansFrom
    rw [List.pairwise_append]
    refine ⟨?_, ih (k + 1), ?_⟩
    · refine List.pairwise_of_forall_mem_list ?_
      intro a ha b hb
      rw [spanOfRaw_line_no ha, spanOfRaw_line_no hb]
    · intro a ha b hb
      rw [spanOfRaw_line_no ha]
      have := (flattenSpansFrom_mem ls (k + 1) b hb).1
      omega

/-- Selecting the spans of visual line `k + d` out of the flattened tail
starting at `k` recovers exactly line `k + d`'s fragment texts. -/
theorem flattenSpansFrom_filter :
    ∀ (ls : List RawLine) (k d : Nat),
      ((flattenSpansFrom k ls).filter (fun sp => sp.line_no == k + d)).map Span.text =
        (match ls.get? d with
         | some l => l.spans.filterMap textOfRaw
         | none => []) := by
  intro ls
  induction ls with
  | nil => intro k d; simp [flattenSpansFrom]
  | cons l ls ih =>
    intro k d
    unfold flattenSpansFrom
    rw [List.filter_append, List.map_append]
    match d with
    | 0 =>
      have hchunk : (l.spans.filterMap (spanOfRaw k)).filter (fun sp => sp.line_no == k + 0) =
          l.spans.filterMap (spanOfRaw k) := by
        refine List.filter_eq_self.mpr ?_
        intro sp hsp
        simp [spanOfRaw_line_no hsp]
      have hrest : (flattenSpansFrom (k + 1) ls).filter (fun sp => sp.line_no == k + 0) = [] := by
        refine List.filter_eq_nil_iff.mpr ?_
        intro sp hsp
        have := (flattenSpansFrom_mem ls (k + 1) sp hsp).1
        simp only [beq_iff_eq]
        omega
      rw [hchunk, hrest, spanOfRaw_texts]
      simp
    | d + 1 =>
      have hchunk : (l.spans.filterMap (spanOfRaw k)).filter
          (fun sp => sp.line_no == k + (d + 1)) = [] := by
        refine List.filter_eq_nil_iff.mpr ?_
        intro sp hsp
        rw [spanOfRaw_line_no hsp]
        simp only [beq_iff_eq]
        omega
      have harith : ∀ sp : Span, (sp.line_no == k + (d + 1)) = (sp.line_no == (k + 1) + d) := by
        intro sp
        have : k + (d + 1) = (k + 1) + d := by omega
        rw [this]
      have hrest := ih (k + 1) d
      rw [hchunk]
      simp only [List.map_nil, List.nil_append, List.get?_cons_succ]
      calc ((flattenSpansFrom (k + 1) ls).filter (fun sp => sp.line_no == k + (d + 1))).map Span.text
          = ((flattenSpansFrom (k + 1) ls).filter (fun sp => sp.line_no == (k + 1) + d)).map Span.text := by
            rw [List.filter_congr (fun sp _ => by rw [harith sp])]
        _ = _ := hrest

/-! ## Lemmas about the contact scanners -/

/-- If the telephone-label pattern matches at no position of `s`, the
label scan finds nothing. -/
theorem telFindAllGo_nil :
    ∀ s : Str, (∀ p, p < s.length → matchTelAt (s.drop p) = none) →
      telFindAllGo s.length s = [] := by
  intro s
  induction s with
  | nil => intro _; rfl
  | cons c cs ih =>
    intro h
    have h0 : matchTelAt (c :: cs) = none := by
      have := h 0 (by simp)
      simpa using this
    show telFindAllGo (cs.length + 1) (c :: cs) = []
    unfold telFindAllGo
    rw [h0]
    exact ih (fun p hp => by
      have := h (p + 1) (by simpa using by omega)
      simpa [List.drop_succ_cons] using this)

/-- If EMAIL_BREAK_RE matches at no position of `s`, the email scan finds
nothing. -/
theorem emailScanGo_nil :
    ∀ s : Str, (∀ p, p < s.length → emailMatchAt (s.drop p) = none) →
      emailScanGo s.length s = [] := by
  intro s
  induction s with
  | nil => intro _; rfl
  | cons c cs ih =>
    intro h
    have h0 : emailMatchAt (c :: cs) = none := by
      have := h 0 (by simp)
      simpa using this
    show emailScanGo (cs.length + 1) (c :: cs) = []
    unfold emailScanGo
    rw [h0]
    exact ih (fun p hp => by
      have := h (p + 1) (by simpa using by omega)
      simpa [List.drop_succ_cons] using this)

/-! ## Lemmas about the flush -/

/-- Flushing always leaves an empty buffer. -/
theorem flushIfCompany_buf (st : HState) : (flushIfCompany st).buf = [] := by
  unfold flushIfCompany
  split
  next h => exact h
  next =>
    dsimp only
    split
    · rfl
    · split
      · split <;> rfl
      · rfl

/-- Flushing a buffer without a company marker records nothing. -/
theorem flushIfCompany_noMarker {st : HState}
    (h : companyMarkerJoined (pyStrip (joinSpaces st.buf)) = false) :
    (flushIfCompany st).results = st.results := by
  unfold flushIfCompany
  split
  · rfl
  · dsimp only
    split
    · rfl
    · split
      next hm => rw [h] at hm; exact absurd hm (by simp)
      · rfl

/-- Flushing a non-rejected, marker-bearing buffer whose cleaned name
passes the checks records exactly one header, terminated by `last_idx`. -/
theorem flushIfCompany_marker {st : HState}
    (hne : st.buf ≠ [])
    (hrej : startsWithReject (pyStrip (joinSpaces st.buf)) = false)
    (hmark : companyMarkerJoined (pyStrip (joinSpaces st.buf)) = true)
    (hcl : collapse2 (pyStrip (coNoSub (pyStrip (joinSpaces st.buf)))) ≠ [])
    (hlen : (collapse2 (pyStrip (coNoSub (pyStrip (joinSpaces st.buf))))).length ≤ 120) :
    (flushIfCompany st).results =
      st.results ++ [(collapse2 (pyStrip (coNoSub (pyStrip (joinSpaces st.buf)))), st.last_idx)] := by
  have h1 : ¬(startsWithReject (pyStrip (joinSpaces st.buf)) = true) := by
    rw [hrej]; simp
  unfold flushIfCompany
  rw [if_neg hne]
  dsimp only
  rw [if_neg h1, if_pos hmark, if_pos ⟨hcl, hlen⟩]

/-! ## The claims -/

/-- C9: order-preserving deduplication is idempotent: for every list of
strings, applying `dedup_preserve_order` to its own output returns that
output unchanged. -/
theorem C9_dedup_idempotent (l : List Str) :
    dedup_preserve_order (dedup_preserve_order l) = dedup_preserve_order l :=
  dedup_preserve_order_of_nodup _ (dedup_preserve_order_nodup l)

/-- C5: on the block text
`"Tel No.: 03-12345678, 019-8765432\nsome.person @ example . com"` the
Contact Extractor returns the two phones in order and the reconstructed
lower-cased email; the only telephone-label tail is the text up to the
line break. -/
theorem C5_contact_example :
    telFindAll exC5text = [("03-12345678, 019-8765432".data)] ∧
    (extract_contacts_from_block exC5text).1 =
      [("03-12345678".data), ("019-8765432".data)] ∧
    (extract_contacts_from_block exC5text).2 = [("some.person@example.com".data)] := by
  refine ⟨by decide, by decide, by decide⟩

/-- C6: a block text in which the telephone-label pattern matches nowhere
yields an empty phone list (phone-shaped substrings without a label are
ignored); likewise a text without an email match yields an empty email
list, and on the concrete label-less text `"Co. No.: 123456-A"` both
fields are empty rather than an error. -/
theorem C6_no_label_empty :
    (∀ s : Str, (∀ p, p < s.length → matchTelAt (s.drop p) = none) →
      (extract_contacts_from_block s).1 = []) ∧
    (∀ s : Str, (∀ p, p < s.length → emailMatchAt (s.drop p) = none) →
      (extract_contacts_from_block s).2 = []) ∧
    extract_contacts_from_block exC6text = ([], []) := by
  refine ⟨?_, ?_, by decide⟩
  · intro s h
    have ht : telFindAll s = [] := telFindAllGo_nil s h
    simp [extract_contacts_from_block, ht, dedup_preserve_order, dedupGo]
  · intro s h
    have ht : emailScan s = [] := emailScanGo_nil s h
    simp [extract_contacts_from_block, normalize_emails, ht, dedup_preserve_order, dedupGo]

/-- Witness for C6 at the concrete text `"Co. No.: 123456-A"`. -/
theorem C6_no_label_empty_witness :
    (extract_contacts_from_block exC6text).1 = [] ∧
    (extract_contacts_from_block exC6text).2 = [] :=
  ⟨C6_no_label_empty.1 exC6text (by decide), C6_no_label_empty.2.1 exC6text (by decide)⟩

/-- C4: two headers with the same cleaned name keep only the first
occurrence (the duplicate creates no second block) and the first header's
block extends past the duplicate's position; in general the detector's
output names are duplicate-free. -/
theorem C4_duplicate_first_wins :
    extract_headers_from_bold exDupSpans = [(("A SDN BHD".data), some 0)] ∧
    slice_company_blocks (extract_headers_from_bold exDupSpans) exDupSpans exDupLines =
      some [(("A SDN BHD".data), ("body1\nA SDN BHD\nbody2".data))] ∧
    ∀ spans : List Span, ((extract_headers_from_bold spans).map Prod.fst).Nodup := by
  refine ⟨by decide, by decide, ?_⟩
  intro spans
  unfold extract_headers_from_bold
  exact dedupResultsGo_names_nodup _ [] [] (by simp) (by simp)

/-- C3 counterexample: on `exC3spans` the registration marker is split
across two bold spans, so the buffer is still open when the bold
rejection-prefix span `"Management team"` arrives; the flush it triggers
records the buffer as the header `"ACME"` instead of discarding it, so the
claim's "discarded as non-company rather than emitted" is false. -/
theorem C3_counterexample :
    exRejSpan.is_bold = true ∧
    startsWithReject exRejSpan.text = true ∧
    headerStep exC3state 2 exRejSpan = flushIfCompany exC3state ∧
    (flushIfCompany exC3state).results = [(("ACME".data), some 1)] ∧
    extract_headers_from_bold exC3spans = [(("ACME".data), some 1)] := by
  refine ⟨rfl, by decide, by decide, by decide, by decide⟩

/-- C3 amended: a bold rejection-prefix span is never added to the buffer
(the step is exactly a flush of the prior state, leaving an empty buffer)
and never itself produces a header; the buffer open at that point goes
through the regular flush, which discards it when it has no company
marker, and records it as a header when it has one and the cleaned name
passes the checks. -/
theorem C3_reject_not_buffered :
    ∀ (st : HState) (i : Nat) (sp : Span), sp.is_bold = true →
      startsWithReject sp.text = true →
      headerStep st i sp = flushIfCompany st ∧
      (headerStep st i sp).buf = [] ∧
      (companyMarkerJoined (pyStrip (joinSpaces st.buf)) = false →
        (headerStep st i sp).results = st.results) ∧
      (st.buf ≠ [] →
        startsWithReject (pyStrip (joinSpaces st.buf)) = false →
        companyMarkerJoined (pyStrip (joinSpaces st.buf)) = true →
        collapse2 (pyStrip (coNoSub (pyStrip (joinSpaces st.buf)))) ≠ [] →
        (collapse2 (pyStrip (coNoSub (pyStrip (joinSpaces st.buf))))).length ≤ 120 →
        (headerStep st i sp).results =
          st.results ++ [(collapse2 (pyStrip (coNoSub (pyStrip (joinSpaces st.buf)))), st.last_idx)]) := by
  intro st i sp hb hr
  have hstep : headerStep st i sp = flushIfCompany st := by
    unfold headerStep
    rw [if_pos hb, if_pos hr]
  refine ⟨hstep, ?_, ?_, ?_⟩
  · rw [hstep]; exact flushIfCompany_buf st
  · intro h; rw [hstep]; exact flushIfCompany_noMarker h
  · intro h1 h2 h3 h4 h5; rw [hstep]; exact flushIfCompany_marker h1 h2 h3 h4 h5

/-- Witness for C3: at the open marker-bearing buffer `exC3state` the
rejection span triggers a flush that records the cleaned buffer, and at a
markerless buffer it discards. -/
theorem C3_reject_not_buffered_witness :
    (headerStep exPlainState 5 exRejSpan).results = exPlainState.results ∧
    (headerStep exC3state 2 exRejSpan).results =
      exC3state.results ++
        [(collapse2 (pyStrip (coNoSub (pyStrip (joinSpaces exC3state.buf)))), exC3state.last_idx)] := by
  refine ⟨?_, ?_⟩
  · exact (C3_reject_not_buffered exPlainState 5 exRejSpan (by decide) (by decide)).2.2.1 (by decide)
  · exact (C3_reject_not_buffered exC3state 2 exRejSpan (by decide) (by decide)).2.2.2
      (by decide) (by decide) (by decide) (by decide) (by decide)

/-- C2: the bold run joining to `"ACME SDN BHD"` yields a header with
exactly that name; a bold run followed immediately by a bold
`"(Co. No.: 123456-A)"` span yields a header with the annotation stripped;
an annotation inside the name also loses the resulting double space; and
every recorded header name is non-empty and at most 120 characters. -/
theorem C2_header_names :
    extract_headers_from_bold exAcme = [(("ACME SDN BHD".data), some 1)] ∧
    extract_headers_from_bold exCoNo = [(("ACME TRADING".data), some 1)] ∧
    extract_headers_from_bold exMid = [(("ACME SDN BHD".data), some 0)] ∧
    ∀ spans : List Span, ∀ h ∈ extract_headers_from_bold spans,
      h.1 ≠ [] ∧ h.1.length ≤ 120 := by
  refine ⟨by decide, by decide, by decide, ?_⟩
  intro spans h hmem
  exact (extract_headers_inv spans h hmem).2

/-- Witness for C2's name bounds at the header produced from `exAcme`. -/
theorem C2_header_names_witness :
    ((("ACME SDN BHD".data), some 1) : Hdr).1 ≠ [] ∧
    ((("ACME SDN BHD".data), some 1) : Hdr).1.length ≤ 120 :=
  C2_header_names.2.2.2 exAcme ((("ACME SDN BHD".data), some 1)) (by decide)

/-- C10: when a header's terminating span lies on the last page line (the
start line is past the last line index), its block is still produced, with
empty body text — the slice is empty, never an out-of-range access. -/
theorem C10_last_line_empty_block :
    ∀ (spans : List Span) (headers : List Hdr) (lines : List Str) (i j : Nat)
      (name : Str) (sp : Span),
      headers.get? i = some (name, some j) → spans.get? j = some sp →
      lines.length ≤ sp.line_no + 1 →
      (∀ nm2 e2, headers.get? (i + 1) = some (nm2, e2) →
        ∃ j2 sp2, e2 = some j2 ∧ spans.get? j2 = some sp2) →
      sliceBlockAt spans headers lines i = some (name, []) := by
  intro spans headers lines i j name sp h1 hs hlen hnext
  have hstop : ∃ r, blockStopRaw spans headers lines.length i = some r := by
    rcases h2 : headers.get? (i + 1) with _ | ⟨nm2, e2⟩
    · exact ⟨_, blockStopRaw_eq_last h2⟩
    · obtain ⟨j2, sp2, he2, hs2⟩ := hnext nm2 e2 h2
      subst he2
      exact ⟨_, by rw [blockStopRaw_eq_mid h2, hs2]; rfl⟩
  obtain ⟨r, hr⟩ := hstop
  have hdrop : lines.drop (sp.line_no + 1) = [] := List.drop_eq_nil_of_le hlen
  rw [sliceBlockAt_eq h1 (blockRangeAt_eq h1 hs hr)]
  unfold pySlice
  rw [hdrop]
  simp only [List.take_nil, List.filter_nil, joinNL]
  rfl

/-- Witness for C10 on the page whose only header sits on the last line. -/
theorem C10_last_line_empty_block_witness :
    sliceBlockAt exC10spans (extract_headers_from_bold exC10spans) exC10lines 0 =
      some (("A SDN BHD".data), []) := by
  refine C10_last_line_empty_block exC10spans (extract_headers_from_bold exC10spans)
    exC10lines 0 0 ("A SDN BHD".data)
    { text := ("A SDN BHD".data), is_bold := true, line_no := 1 }
    (by decide) (by decide) (by decide) ?_
  intro nm2 e2 h
  rw [show extract_headers_from_bold exC10spans = [(("A SDN BHD".data), some 0)] from by decide] at h
  simp at h

/-- A block whose header and (clamped) range resolve is produced. -/
theorem sliceBlockAt_isSome {spans : List Span} {headers : List Hdr} {lines : List Str}
    {i j : Nat} {nm : Str} {sp : Span}
    (h1 : headers.get? i = some (nm, some j)) (hs : spans.get? j = some sp)
    (hnext : ∀ nm2 e2, headers.get? (i + 1) = some (nm2, e2) →
      ∃ j2 sp2, e2 = some j2 ∧ spans.get? j2 = some sp2) :
    (sliceBlockAt spans headers lines i).isSome := by
  have hstop : ∃ r, blockStopRaw spans headers lines.length i = some r := by
    rcases h2 : headers.get? (i + 1) with _ | ⟨nm2, e2⟩
    · exact ⟨_, blockStopRaw_eq_last h2⟩
    · obtain ⟨j2, sp2, he2, hs2⟩ := hnext nm2 e2 h2
      subst he2
      exact ⟨_, by rw [blockStopRaw_eq_mid h2, hs2]; rfl⟩
  obtain ⟨r, hr⟩ := hstop
  rw [sliceBlockAt_eq h1 (blockRangeAt_eq h1 hs hr)]
  rfl

/-- A produced block carries the name of its header. -/
theorem sliceBlockAt_name {spans : List Span} {headers : List Hdr} {lines : List Str}
    {i : Nat} {b : Str × Str} (h : sliceBlockAt spans headers lines i = some b) :
    ∃ e, headers.get? i = some (b.1, e) := by
  rcases h1 : headers.get? i with _ | ⟨nm, e⟩
  · rw [show sliceBlockAt spans headers lines i = none from by
      unfold sliceBlockAt; rw [h1]] at h
    exact absurd h (by simp)
  rcases h2 : blockRangeAt spans headers lines.length i with _ | ⟨s, t⟩
  · rw [show sliceBlockAt spans headers lines i = none from by
      unfold sliceBlockAt; rw [h1, h2]] at h
    exact absurd h (by simp)
  · rw [sliceBlockAt_eq h1 h2] at h
    injection h with h
    exact ⟨e, by subst h; simp [h1]⟩

/-- A successful block range means the header index is in range. -/
theorem blockRangeAt_lt {spans : List Span} {headers : List Hdr} {numLines i s t : Nat}
    (h : blockRangeAt spans headers numLines i = some (s, t)) : i < headers.length := by
  by_contra hge
  have hn : headers.get? i = none := List.get?_eq_none.mpr (by omega)
  have hn2 : headers[i]? = none := by rw [← List.get?_eq_getElem?]; exact hn
  rcases hb : blockStopRaw spans headers numLines i with _ | r <;>
    simp [blockRangeAt, hn, hn2, hb] at h

/-- C8: every header emitted by the detector carries a terminating span
index that is a valid index into the span sequence, so the slicer's span
lookups always succeed and the whole slicing call returns a value. -/
theorem C8_terminators_valid :
    ∀ (spans : List Span) (lines : List Str),
      (∀ r ∈ extract_headers_from_bold spans, ∃ j, r.2 = some j ∧ j < spans.length) ∧
      (slice_company_blocks (extract_headers_from_bold spans) spans lines).isSome := by
  intro spans lines
  refine ⟨fun r hr => (extract_headers_inv spans r hr).1, ?_⟩
  refine mapMo_isSome _ _ ?_
  intro i hi
  rw [List.mem_range] at hi
  obtain ⟨r, hrr⟩ : ∃ r, (extract_headers_from_bold spans).get? i = some r := by
    rcases hh : (extract_headers_from_bold spans).get? i with _ | r
    · rw [List.get?_eq_none] at hh; omega
    · exact ⟨r, rfl⟩
  obtain ⟨nm, e⟩ := r
  obtain ⟨j, hj, hjlt⟩ := (extract_headers_inv spans (nm, e) (List.get?_mem hrr)).1
  have hj' : e = some j := hj
  subst hj'
  obtain ⟨sp, hsp⟩ : ∃ sp, spans.get? j = some sp := ⟨_, List.get?_eq_get hjlt⟩
  refine sliceBlockAt_isSome hrr hsp ?_
  intro nm2 e2 h2
  obtain ⟨j2, hj2, hj2lt⟩ := (extract_headers_inv spans (nm2, e2) (List.get?_mem h2)).1
  have hj2' : e2 = some j2 := hj2
  subst hj2'
  exact ⟨j2, _, rfl, List.get?_eq_get hj2lt⟩

/-- Witness for C8 on the duplicate-header page. -/
theorem C8_terminators_valid_witness :
    (∃ j, ((("A SDN BHD".data), some 0) : Hdr).2 = some j ∧ j < exDupSpans.length) ∧
    (slice_company_blocks (extract_headers_from_bold exDupSpans) exDupSpans exDupLines).isSome :=
  ⟨(C8_terminators_valid exDupSpans exDupLines).1 ((("A SDN BHD".data), some 0)) (by decide),
   (C8_terminators_valid exDupSpans exDupLines).2⟩

/-- C7: the flattener's spans have non-decreasing line indices; it emits
exactly one Line per visual text line of the text blocks, in order
(an all-empty line contributes an empty-text Line); every span's
`line_no` is a valid index into the Lines sequence; and the spans whose
`line_no` equals `m` are exactly line `m`'s non-empty collapsed
fragments. -/
theorem C7_flattener :
    ∀ blocks : List RawBlock,
      List.Pairwise (fun a b => a.line_no ≤ b.line_no) (get_flat_spans_with_lines blocks).1 ∧
      (get_flat_spans_with_lines blocks).2 = (textLinesOf blocks).map lineTextOfRaw ∧
      (∀ l : RawLine, l.spans.filterMap textOfRaw = [] → lineTextOfRaw l = []) ∧
      (∀ sp ∈ (get_flat_spans_with_lines blocks).1,
        sp.line_no < (get_flat_spans_with_lines blocks).2.length) ∧
      (∀ m, (((get_flat_spans_with_lines blocks).1.filter
          (fun sp => sp.line_no == m)).map Span.text) =
        (match (textLinesOf blocks).get? m with
         | some l => l.spans.filterMap textOfRaw
         | none => [])) := by
  intro blocks
  refine ⟨flattenSpansFrom_pairwise (textLinesOf blocks) 0, rfl, ?_, ?_, ?_⟩
  · intro l h
    unfold lineTextOfRaw
    rw [h]
    rfl
  · intro sp hsp
    have h2 := (flattenSpansFrom_mem (textLinesOf blocks) 0 sp hsp).2
    simp only [get_flat_spans_with_lines, List.length_map]
    omega
  · intro m
    have h := flattenSpansFrom_filter (textLinesOf blocks) 0 m
    simpa [get_flat_spans_with_lines] using h

/-- Witness for C7 on the concrete layout `exBlocks`. -/
theorem C7_flattener_witness :
    lineTextOfRaw exEmptyLine = [] ∧
    exBoldSpan.line_no < (get_flat_spans_with_lines exBlocks).2.length :=
  ⟨(C7_flattener exBlocks).2.2.1 exEmptyLine (by decide),
   (C7_flattener exBlocks).2.2.2.1 exBoldSpan (by decide)⟩

/-- C1 counterexample: on a page whose two headers terminate on the same
visual line, clamping gives both blocks the line range `[1, 1]`: the page
line `"body"` is attributed to both companies, so the claimed pairwise
non-overlap of the clamped ranges is false. -/
theorem C1_ranges_overlap_counterexample :
    extract_headers_from_bold exC1spans =
      [(("A SDN BHD".data), some 0), (("B SDN BHD".data), some 1)] ∧
    blockRangeAt exC1spans (extract_headers_from_bold exC1spans) exC1lines.length 0 =
      some (1, 1) ∧
    blockRangeAt exC1spans (extract_headers_from_bold exC1spans) exC1lines.length 1 =
      some (1, 1) ∧
    slice_company_blocks (extract_headers_from_bold exC1spans) exC1spans exC1lines =
      some [(("A SDN BHD".data), ("body".data)), (("B SDN BHD".data), ("body".data))] ∧
    ¬ rangesNonOverlapping exC1spans (extract_headers_from_bold exC1spans) exC1lines.length := by
  refine ⟨by decide, by decide, by decide, by decide, ?_⟩
  intro h
  have := h 0 1 1 1 1 1 (by omega) (by decide) (by decide)
  omega

/-- C1 amended: when every header has a defined terminating line and
consecutive terminating lines strictly increase (no two headers end on
the same line), the slicer returns exactly one block per header in header
order, the clamped line ranges are ordered and pairwise non-overlapping,
and each range covers every line strictly between its header's and its
successor's terminating lines. -/
theorem C1_slicer_blocks (spans : List Span) (headers : List Hdr) (lines : List Str)
    (hval : ∀ i, i < headers.length → ∃ L, termLineAt spans headers i = some L)
    (hmono : ∀ i L L', termLineAt spans headers i = some L →
      termLineAt spans headers (i + 1) = some L' → L < L') :
    (∃ blocks, slice_company_blocks headers spans lines = some blocks ∧
      blocks.length = headers.length ∧
      (∀ k nm e, headers.get? k = some (nm, e) →
        ∃ body, blocks.get? k = some (nm, body))) ∧
    rangesNonOverlapping spans headers lines.length ∧
    (∀ i L L' s t ℓ, termLineAt spans headers i = some L →
      termLineAt spans headers (i + 1) = some L' →
      blockRangeAt spans headers lines.length i = some (s, t) →
      L < ℓ → ℓ < L' → s ≤ ℓ ∧ ℓ ≤ t) := by
  have hterm : ∀ k, k < headers.length →
      ∃ nm j sp, headers.get? k = some (nm, some j) ∧ spans.get? j = some sp := by
    intro k hk
    obtain ⟨L, hL⟩ := hval k hk
    obtain ⟨nm, j, sp, h1, h2, _⟩ := termLineAt_inv hL
    exact ⟨nm, j, sp, h1, h2⟩
  have hnext : ∀ k nm2 e2, headers.get? (k + 1) = some (nm2, e2) →
      ∃ j2 sp2, e2 = some j2 ∧ spans.get? j2 = some sp2 := by
    intro k nm2 e2 h2
    have hk2 : k + 1 < headers.length := (List.get?_eq_some.mp h2).choose
    obtain ⟨nm2b, j2, sp2, h1b, h2b⟩ := hterm (k + 1) hk2
    rw [h2] at h1b
    injection h1b with h1b
    rw [Prod.mk.injEq] at h1b
    exact ⟨j2, sp2, h1b.2, h2b⟩
  refine ⟨?_, ?_, ?_⟩
  · have hAll : ∀ k ∈ List.range headers.length, (sliceBlockAt spans headers lines k).isSome := by
      intro k hk
      rw [List.mem_range] at hk
      obtain ⟨nm, j, sp, h1, h2⟩ := hterm k hk
      exact sliceBlockAt_isSome h1 h2 (hnext k)
    have hs := mapMo_isSome (sliceBlockAt spans headers lines) (List.range headers.length) hAll
    rw [Option.isSome_iff_exists] at hs
    obtain ⟨blocks, hblocks⟩ := hs
    obtain ⟨hlen, hget⟩ := mapMo_get _ _ _ hblocks
    refine ⟨blocks, hblocks, by simpa using hlen, ?_⟩
    intro k nm e hk
    have hklt : k < headers.length := (List.get?_eq_some.mp hk).choose
    have hrange : (List.range headers.length).get? k = some k := by
      rw [List.get?_eq_getElem?]
      exact List.getElem?_range hklt
    obtain ⟨b, hfb, hbk⟩ := hget k k hrange
    obtain ⟨e2, hname⟩ := sliceBlockAt_name hfb
    rw [hk] at hname
    injection hname with hname
    rw [Prod.mk.injEq] at hname
    refine ⟨b.2, ?_⟩
    rw [hname.1]
    simpa using hbk
  · intro i j si ti sj tj hij hbi hbj
    have hjlt : j < headers.length := blockRangeAt_lt hbj
    have hilt : i < headers.length := blockRangeAt_lt hbi
    have hi1lt : i + 1 < headers.length := by omega
    obtain ⟨Li, hLi⟩ := hval i hilt
    obtain ⟨Li1, hLi1⟩ := hval (i + 1) hi1lt
    obtain ⟨Lj, hLj⟩ := hval j hjlt
    have hsj : sj = Lj + 1 := blockRangeAt_fst hLj hbj
    have hti : ti = if Li1 ≤ Li + 1 then Li + 1 else Li1 - 1 := by
      have hf : blockRangeAt spans headers lines.length i =
          some (Li + 1, if Li1 ≤ Li + 1 then Li + 1 else Li1 - 1) :=
        blockRangeAt_formula_mid hLi hLi1
      rw [hf] at hbi
      injection hbi with hbi
      rw [Prod.mk.injEq] at hbi
      exact hbi.2.symm
    have h1 : Li < Li1 := hmono i Li Li1 hLi hLi1
    have h2 : Li1 ≤ Lj := by
      rcases Nat.lt_or_ge (i + 1) j with hlt | hge
      · have := termLineAt_chain hval hmono (j - (i + 1) - 1) (i + 1) Li1 Lj hLi1 (by
          have harith : i + 1 + (j - (i + 1) - 1) + 1 = j := by omega
          rw [harith]
          exact hLj)
        omega
      · have hj2 : j = i + 1 := by omega
        rw [hj2, hLi1] at hLj
        injection hLj with hLj
        omega
    by_cases hc : Li1 ≤ Li + 1
    · rw [if_pos hc] at hti; omega
    · rw [if_neg hc] at hti; omega
  · intro i L L' s t ℓ hL hL' hb hlt1 hlt2
    have hf : blockRangeAt spans headers lines.length i =
        some (L + 1, if L' ≤ L + 1 then L + 1 else L' - 1) :=
      blockRangeAt_formula_mid hL hL'
    rw [hf] at hb
    injection hb with hb
    rw [Prod.mk.injEq] at hb
    obtain ⟨hs, ht⟩ := hb
    by_cases hc : L' ≤ L + 1
    · omega
    · rw [if_neg hc] at ht; omega

/-- Witness for the amended C1 on the two-company page. -/
theorem C1_slicer_blocks_witness :
    (∃ blocks, slice_company_blocks exTwoHeaders exTwoSpans exTwoLines = some blocks ∧
      blocks.length = exTwoHeaders.length ∧
      (∀ k nm e, exTwoHeaders.get? k = some (nm, e) →
        ∃ body, blocks.get? k = some (nm, body))) ∧
    rangesNonOverlapping exTwoSpans exTwoHeaders exTwoLines.length ∧
    (∀ i L L' s t ℓ, termLineAt exTwoSpans exTwoHeaders i = some L →
      termLineAt exTwoSpans exTwoHeaders (i + 1) = some L' →
      blockRangeAt exTwoSpans exTwoHeaders exTwoLines.length i = some (s, t) →
      L < ℓ → ℓ < L' → s ≤ ℓ ∧ ℓ ≤ t) := by
  refine C1_slicer_blocks exTwoSpans exTwoHeaders exTwoLines ?_ ?_
  · intro i hi
    have hlen : exTwoHeaders.length = 2 := by decide
    rw [hlen] at hi
    interval_cases i
    · exact ⟨0, by decide⟩
    · exact ⟨2, by decide⟩
  · intro i L L' h1 h2
    have hlt := termLineAt_lt h2
    have hlen : exTwoHeaders.length = 2 := by decide
    rw [hlen] at hlt
    have hi : i = 0 := by omega
    subst hi
    rw [show termLineAt exTwoSpans exTwoHeaders 0 = some 0 from by decide] at h1
    rw [show termLineAt exTwoSpans exTwoHeaders 1 = some 2 from by decide] at h2
    injection h1 with h1
    injection h2 with h2
    omega

end Scribe
